import Mathlib

/-!
# ReferencedSecrets: the issuer/secret reference index

A verification development for `pkg/controller/issuer/referencedSecrets.go`.

The Go type keeps two maps and a mutex.  The model below is sequential: every
public method takes the lock on entry and releases it on return, so a method is
a function from the state before the call to the returned value together with
the state after it.

Go maps are modelled as functions into `Option`: `m k = none` says that `k` is
not a key of the map, `m k = some v` that it is a key with value `v`.
Assignment `m[k] = v` is `Function.update m k (some v)` and `delete(m, k)` is
`Function.update m k none`.  Two Go maps hold the same entries exactly when the
two functions are equal.  Every set stored in `secretToIssuers` is a value of
its own: the code stores a set only at the one place where it has just created
it, so no two keys share a set.
-/

namespace ReferencedSecrets

/-- The value behind `resources.ObjectName` (controller-manager-library) as
built by `resources.NewObjectName(namespace, name)`: a pair of strings, compared
and used as a map key by value. -/
structure ObjectName where
  Namespace : String
  Name : String
deriving DecidableEq, Repr

/-- A non-nil `resources.ObjectNameSet` (`map[ObjectName]struct{}`): a finite
set of object names.  A Go expression of this type may also be `nil`; such
expressions have type `Option ObjectNameSet` below, `none` standing for `nil`. -/
abbrev ObjectNameSet := Finset ObjectName

/-- The target of a `*v1.SecretReference`, of which the index reads the
namespace and the name of the secret. -/
structure SecretReference where
  Namespace : String
  Name : String
deriving DecidableEq, Repr

/-- Modelled from the spec: the declaration of `api.ACMESpec` (package
`pkg/apis/cert/v1alpha1`) is not among the sources. The spec gives an issuer an
optional reference to a secret's namespace and name; `RememberIssuerSecret`
compares `PrivateKeySecretRef` with nil, so it is a pointer and `none` is the
nil pointer. -/
structure ACMESpec where
  PrivateKeySecretRef : Option SecretReference
deriving DecidableEq, Repr

/-- Modelled from the spec: the declaration of `api.IssuerSpec` is not among
the sources; the index reads its field `ACME` only. This is the spec of an
issuer whose ACME section is present; `GoIssuerSpec` below keeps the field as
the pointer it is in Go. -/
structure IssuerSpec where
  ACME : ACMESpec
deriving DecidableEq, Repr

/-- Modelled from the spec: the declaration of `api.Issuer` is not among the
sources. The index reads the namespace and the name of the object and
`Spec.ACME.PrivateKeySecretRef`; in the words of the spec, an issuer has a
namespace, a name and an optional reference to a secret. -/
structure Issuer where
  Namespace : String
  Name : String
  Spec : IssuerSpec
deriving DecidableEq, Repr

/-- The issuer object with the given namespace, name and secret reference;
every `Issuer` is of this form. -/
def Issuer.make (ns name : String) (secretRef : Option SecretReference) : Issuer :=
  { Namespace := ns, Name := name, Spec := { ACME := { PrivateKeySecretRef := secretRef } } }

end ReferencedSecrets

/-- The two maps of the Go struct `ReferencedSecrets` (the mutex is not part of
the sequential state). The sets stored in `secretToIssuers` are the non-nil
sets created in `updateIssuerSecret`; a nil set is what reading an absent key
yields. -/
structure ReferencedSecrets where
  secretToIssuers : ReferencedSecrets.ObjectName → Option ReferencedSecrets.ObjectNameSet
  issuerToSecret : ReferencedSecrets.ObjectName → Option ReferencedSecrets.ObjectName

namespace ReferencedSecrets

/-- The Go constructor `NewReferencedSecrets`: both maps empty. -/
def NewReferencedSecrets : ReferencedSecrets :=
  { secretToIssuers := fun _ => none
    issuerToSecret := fun _ => none }

/-- The Go function `newObjectName`: an empty namespace becomes "default". -/
def newObjectName (ns name : String) : ObjectName :=
  let ns := if ns = "" then "default" else ns
  { Namespace := ns, Name := name }

/-- The method `ObjectNameSet.Remove` applied to the value read at
`secretToIssuers[secretName]`: the stored set loses `name`; on a nil set
(absent key) the deletion does nothing and no key is created. -/
def removeFromSet (m : ObjectName → Option ObjectNameSet) (secretName name : ObjectName) :
    ObjectName → Option ObjectNameSet :=
  match m secretName with
  | some set => Function.update m secretName (some (set.erase name))
  | none => m

/-- The Go expression `len(m[secretName])`; a nil set has length 0. -/
def lenAt (m : ObjectName → Option ObjectNameSet) (secretName : ObjectName) : Nat :=
  match m secretName with
  | some set => set.card
  | none => 0

/-- The unexported method `removeIssuer`: returns `ok` and the state after. -/
def removeIssuer (rs : ReferencedSecrets) (issuerName : ObjectName) : Bool × ReferencedSecrets :=
  match rs.issuerToSecret issuerName with
  | some secretName =>
    let issuerToSecret := Function.update rs.issuerToSecret issuerName none
    let secretToIssuers := removeFromSet rs.secretToIssuers secretName issuerName
    let secretToIssuers :=
      if lenAt secretToIssuers secretName = 0 then Function.update secretToIssuers secretName none
      else secretToIssuers
    (true, { secretToIssuers := secretToIssuers, issuerToSecret := issuerToSecret })
  | none => (false, rs)

/-- The unexported method `updateIssuerSecret`: returns the changed flag and
the state after. -/
def updateIssuerSecret (rs : ReferencedSecrets) (issuerName secretName : ObjectName) :
    Bool × ReferencedSecrets :=
  let unchanged : Bool :=
    match rs.issuerToSecret issuerName with
    | some oldSecretName => oldSecretName == secretName
    | none => false
  if unchanged then (false, rs)
  else
    let rs := (removeIssuer rs issuerName).2
    let issuerToSecret := Function.update rs.issuerToSecret issuerName (some secretName)
    let set : ObjectNameSet :=
      match rs.secretToIssuers secretName with
      | some set => set
      | none => ∅
    let secretToIssuers := Function.update rs.secretToIssuers secretName (some (insert issuerName set))
    (true, { secretToIssuers := secretToIssuers, issuerToSecret := issuerToSecret })

/-- The exported method `RememberIssuerSecret`. -/
def RememberIssuerSecret (rs : ReferencedSecrets) (issuer : Issuer) : Bool × ReferencedSecrets :=
  let secretRef := issuer.Spec.ACME.PrivateKeySecretRef
  let issuerName := newObjectName issuer.Namespace issuer.Name
  match secretRef with
  | none => removeIssuer rs issuerName
  | some secretRef =>
    let secretName := newObjectName secretRef.Namespace secretRef.Name
    updateIssuerSecret rs issuerName secretName

/-- The exported method `RemoveIssuer`: the name is used as it is passed. -/
def RemoveIssuer (rs : ReferencedSecrets) (issuerName : ObjectName) : Bool × ReferencedSecrets :=
  removeIssuer rs issuerName

/-- The exported method `IssuerNamesFor`: `none` is the nil result for an
absent key, otherwise a copy of the stored set; the state after the call is
returned with it. -/
def IssuerNamesFor (rs : ReferencedSecrets) (secretName : ObjectName) :
    Option ObjectNameSet × ReferencedSecrets :=
  match rs.secretToIssuers secretName with
  | none => (none, rs)
  | some set => (some set, rs)

/-- A call of one of the two mutating methods of the index. -/
inductive Call where
  | remember (issuer : Issuer)
  | remove (issuerName : ObjectName)
deriving DecidableEq, Repr

/-- The state after one call. -/
def step (rs : ReferencedSecrets) : Call → ReferencedSecrets
  | .remember issuer => (RememberIssuerSecret rs issuer).2
  | .remove issuerName => (RemoveIssuer rs issuerName).2

/-- The state after a finite sequence of calls made on `rs`, first call first. -/
def runFrom (rs : ReferencedSecrets) (calls : List Call) : ReferencedSecrets :=
  calls.foldl step rs

/-- The state reached from `NewReferencedSecrets()` by a finite sequence of calls. -/
def run (calls : List Call) : ReferencedSecrets :=
  runFrom NewReferencedSecrets calls

/-- The issuer `i` is a member of the set stored for the secret `s`. -/
def References (rs : ReferencedSecrets) (s i : ObjectName) : Prop :=
  ∃ set, rs.secretToIssuers s = some set ∧ i ∈ set

/-- The consistency invariant of the two maps: forward links are mirrored in
the reverse sets, members of reverse sets have the matching forward link, and
no stored set is empty. -/
structure Inv (rs : ReferencedSecrets) : Prop where
  fwd : ∀ i s, rs.issuerToSecret i = some s → References rs s i
  rev : ∀ s i, References rs s i → rs.issuerToSecret i = some s
  nonempty : ∀ s set, rs.secretToIssuers s = some set → set.Nonempty

/-- No name with an empty namespace is a key of either map. -/
def NoEmptyNamespaceKey (rs : ReferencedSecrets) : Prop :=
  ∀ k : ObjectName, k.Namespace = "" →
    rs.issuerToSecret k = none ∧ rs.secretToIssuers k = none

/-- The normalised name under which `RememberIssuerSecret` files the issuer. -/
def Issuer.objectName (issuer : Issuer) : ObjectName :=
  newObjectName issuer.Namespace issuer.Name

/-- The normalised name of the secret the issuer refers to; `none` when the
issuer carries no secret reference. -/
def Issuer.secretName (issuer : Issuer) : Option ObjectName :=
  issuer.Spec.ACME.PrivateKeySecretRef.map fun ref => newObjectName ref.Namespace ref.Name

/-! ## The steps of the code that can fail at run time

On an index built by `NewReferencedSecrets` both maps of the struct are non-nil,
so reading them, assigning to them and deleting from them cannot fail; `delete`
and `len` are defined on a nil set as well.  Two kinds of step remain that Go
aborts on: adding to a nil `ObjectNameSet` (an assignment to an entry of a nil
map) and reading a field through a nil pointer.  The definitions below follow
`updateIssuerSecret` and `RememberIssuerSecret` statement by statement with
these steps made explicit.  `RememberIssuerSecret` receives an `*api.Issuer`
and reads `issuer.Spec.ACME.PrivateKeySecretRef`, a chain through three
pointers: the issuer, its `Spec.ACME` and, after the nil test, `secretRef`. -/

/-- Modelled from the spec: the declaration of `api.IssuerSpec` is not among
the sources. This is the Go value with the field `ACME` kept as the pointer it
is (`*ACMESpec`); `none` is the spec of an issuer without an ACME section, and
such an issuer has no secret reference. -/
structure GoIssuerSpec where
  ACME : Option ACMESpec
deriving DecidableEq, Repr

/-- Modelled from the spec: the declaration of `api.Issuer` is not among the
sources. This is the target of an `*api.Issuer`: namespace and name of the
object and its spec, whose `ACME` may be nil. -/
structure GoIssuer where
  Namespace : String
  Name : String
  Spec : GoIssuerSpec
deriving DecidableEq, Repr

/-- The argument `*api.Issuer` that points to an issuer whose ACME spec is
present; `Issuer` holds exactly these issuers. -/
def Issuer.toGo (issuer : Issuer) : Option GoIssuer :=
  some { Namespace := issuer.Namespace, Name := issuer.Name,
         Spec := { ACME := some issuer.Spec.ACME } }

/-- The run-time failures of the steps used by the index. -/
inductive Panic where
  | assignmentToNilMap
  | nilPointerDereference
deriving DecidableEq, Repr

/-- The method `ObjectNameSet.Add` on a possibly nil set: adding to a nil set
is an assignment to an entry of a nil map. -/
def addChecked (set : Option ObjectNameSet) (name : ObjectName) : Except Panic ObjectNameSet :=
  match set with
  | some set => .ok (insert name set)
  | none => .error .assignmentToNilMap

/-- Reading the target of a possibly nil pointer. -/
def derefChecked {α : Type} (p : Option α) : Except Panic α :=
  match p with
  | some a => .ok a
  | none => .error .nilPointerDereference

/-- The method `updateIssuerSecret` with the `Add` step checked: `set` is the
value read at `secretToIssuers[secretName]` (nil for an absent key), replaced
by a fresh set when it is nil, and `Add` is then applied to it. -/
def updateIssuerSecretChecked (rs : ReferencedSecrets) (issuerName secretName : ObjectName) :
    Except Panic (Bool × ReferencedSecrets) :=
  let unchanged : Bool :=
    match rs.issuerToSecret issuerName with
    | some oldSecretName => oldSecretName == secretName
    | none => false
  if unchanged then .ok (false, rs)
  else
    let rs := (removeIssuer rs issuerName).2
    let issuerToSecret := Function.update rs.issuerToSecret issuerName (some secretName)
    let set : Option ObjectNameSet := rs.secretToIssuers secretName
    let set : Option ObjectNameSet := if set.isNone then some ∅ else set
    match addChecked set issuerName with
    | .ok set =>
      .ok (true,
        { secretToIssuers := Function.update rs.secretToIssuers secretName (some set),
          issuerToSecret := issuerToSecret })
    | .error e => .error e

/-- The method `RememberIssuerSecret` on its Go argument, an `*api.Issuer`
that may be nil, with every read through a pointer checked. The first statement
`secretRef := issuer.Spec.ACME.PrivateKeySecretRef` reads through `issuer` and
through `issuer.Spec.ACME` before any nil test; `secretRef` is compared with nil
next and read through only after that. -/
def RememberIssuerSecretChecked (rs : ReferencedSecrets) (issuer : Option GoIssuer) :
    Except Panic (Bool × ReferencedSecrets) :=
  match derefChecked issuer with
  | .error e => .error e
  | .ok obj =>
    match derefChecked obj.Spec.ACME with
    | .error e => .error e
    | .ok acme =>
      let secretRef := acme.PrivateKeySecretRef
      let issuerName := newObjectName obj.Namespace obj.Name
      if secretRef.isNone then .ok (removeIssuer rs issuerName)
      else
        match derefChecked secretRef with
        | .ok ref =>
          updateIssuerSecretChecked rs issuerName (newObjectName ref.Namespace ref.Name)
        | .error e => .error e

/-! ## Pointwise description of the two helpers -/

theorem removeIssuer_of_none {rs : ReferencedSecrets} {i : ObjectName}
    (h : rs.issuerToSecret i = none) : removeIssuer rs i = (false, rs) := by
  simp [removeIssuer, h]

theorem removeIssuer_fst (rs : ReferencedSecrets) (i : ObjectName) :
    (removeIssuer rs i).1 = (rs.issuerToSecret i).isSome := by
  unfold removeIssuer
  cases h : rs.issuerToSecret i <;> simp

theorem removeIssuer_issuerToSecret (rs : ReferencedSecrets) (i j : ObjectName) :
    (removeIssuer rs i).2.issuerToSecret j = if j = i then none else rs.issuerToSecret j := by
  unfold removeIssuer
  cases h : rs.issuerToSecret i with
  | none =>
    by_cases hj : j = i
    · simp [hj, h]
    · simp [hj]
  | some s0 =>
    by_cases hj : j = i
    · subst hj
      simp
    · simp [hj, Function.update_noteq]

theorem removeIssuer_secretToIssuers_ne {rs : ReferencedSecrets} {i s0 s : ObjectName}
    (h : rs.issuerToSecret i = some s0) (hs : s ≠ s0) :
    (removeIssuer rs i).2.secretToIssuers s = rs.secretToIssuers s := by
  unfold removeIssuer
  simp only [h]
  unfold removeFromSet
  cases hset : rs.secretToIssuers s0 <;> simp <;> split <;> simp [Function.update_noteq, hs]

theorem removeIssuer_secretToIssuers_same {rs : ReferencedSecrets} {i s0 : ObjectName}
    (h : rs.issuerToSecret i = some s0) :
    (removeIssuer rs i).2.secretToIssuers s0 =
      match rs.secretToIssuers s0 with
      | some set => if set.erase i = ∅ then none else some (set.erase i)
      | none => none := by
  unfold removeIssuer
  simp only [h]
  unfold removeFromSet lenAt
  cases hset : rs.secretToIssuers s0 with
  | none => simp [hset]
  | some set =>
    by_cases he : set.erase i = ∅
    · simp [he]
    · simp [he]

theorem references_removeIssuer (rs : ReferencedSecrets) (i s j : ObjectName) :
    References (removeIssuer rs i).2 s j ↔
      References rs s j ∧ ¬ (j = i ∧ rs.issuerToSecret i = some s) := by
  cases h : rs.issuerToSecret i with
  | none => simp [removeIssuer_of_none h]
  | some s0 =>
    by_cases hs : s = s0
    · subst hs
      unfold References
      rw [removeIssuer_secretToIssuers_same h]
      cases hset : rs.secretToIssuers s with
      | none => simp
      | some set =>
        by_cases he : set.erase i = ∅
        · simp only [he, if_true]
          have : ∀ j, j ∈ set → j = i := by
            intro j hj
            by_contra hne
            have : j ∈ set.erase i := Finset.mem_erase.mpr ⟨hne, hj⟩
            simp [he] at this
          constructor
          · rintro ⟨_, h1, _⟩
            cases h1
          · rintro ⟨⟨set2, h2, hj⟩, hn⟩
            cases h2
            exact (hn ⟨this j hj, trivial⟩).elim
        · simp only [he, if_false, Option.some.injEq]
          constructor
          · rintro ⟨_, rfl, hj⟩
            rw [Finset.mem_erase] at hj
            exact ⟨⟨set, rfl, hj.2⟩, fun hh => hj.1 hh.1⟩
          · rintro ⟨⟨set2, h2, hj⟩, hn⟩
            cases h2
            exact ⟨_, rfl, Finset.mem_erase.mpr ⟨fun hh => hn ⟨hh, trivial⟩, hj⟩⟩
    · unfold References
      rw [removeIssuer_secretToIssuers_ne h hs]
      have : ¬ (s0 = s) := fun hh => hs hh.symm
      simp [this]

theorem updateIssuerSecret_of_eq {rs : ReferencedSecrets} {i s : ObjectName}
    (h : rs.issuerToSecret i = some s) : updateIssuerSecret rs i s = (false, rs) := by
  simp [updateIssuerSecret, h]

theorem updateIssuerSecret_of_ne {rs : ReferencedSecrets} {i s : ObjectName}
    (h : rs.issuerToSecret i ≠ some s) :
    updateIssuerSecret rs i s =
      (true,
        { secretToIssuers :=
            Function.update (removeIssuer rs i).2.secretToIssuers s
              (some (insert i
                (match (removeIssuer rs i).2.secretToIssuers s with
                 | some set => set
                 | none => ∅)))
          issuerToSecret := Function.update (removeIssuer rs i).2.issuerToSecret i (some s) }) := by
  unfold updateIssuerSecret
  cases hold : rs.issuerToSecret i with
  | none => simp
  | some s0 =>
    have : s0 ≠ s := fun hh => h (by rw [hold, hh])
    simp [this]

theorem updateIssuerSecret_fst (rs : ReferencedSecrets) (i s : ObjectName) :
    (updateIssuerSecret rs i s).1 = false ↔ rs.issuerToSecret i = some s := by
  by_cases h : rs.issuerToSecret i = some s
  · simp [updateIssuerSecret_of_eq h, h]
  · simp [updateIssuerSecret_of_ne h, h]

theorem updateIssuerSecret_issuerToSecret (rs : ReferencedSecrets) (i s j : ObjectName) :
    (updateIssuerSecret rs i s).2.issuerToSecret j =
      if j = i then some s else rs.issuerToSecret j := by
  by_cases h : rs.issuerToSecret i = some s
  · rw [updateIssuerSecret_of_eq h]
    by_cases hj : j = i
    · subst hj
      simp [h]
    · simp [hj]
  · rw [updateIssuerSecret_of_ne h]
    by_cases hj : j = i
    · subst hj
      simp
    · simp [hj, Function.update_noteq, removeIssuer_issuerToSecret]

theorem references_updateIssuerSecret {rs : ReferencedSecrets} {i s : ObjectName}
    (h : rs.issuerToSecret i ≠ some s) (s1 j : ObjectName) :
    References (updateIssuerSecret rs i s).2 s1 j ↔
      (s1 = s ∧ j = i) ∨ References (removeIssuer rs i).2 s1 j := by
  rw [updateIssuerSecret_of_ne h]
  unfold References
  by_cases hs : s1 = s
  · subst hs
    simp only [Function.update_same, Option.some.injEq, true_and]
    cases hset : (removeIssuer rs i).2.secretToIssuers s1 with
    | none => simp
    | some set =>
      constructor
      · rintro ⟨_, rfl, hj⟩
        rcases Finset.mem_insert.mp hj with hj | hj
        · exact Or.inl hj
        · exact Or.inr ⟨set, rfl, hj⟩
      · rintro (hj | ⟨set2, h2, hj⟩)
        · exact ⟨_, rfl, Finset.mem_insert.mpr (Or.inl hj)⟩
        · cases h2
          exact ⟨_, rfl, Finset.mem_insert.mpr (Or.inr hj)⟩
  · simp [hs, Function.update_noteq]

theorem RememberIssuerSecret_of_none {issuer : Issuer} (rs : ReferencedSecrets)
    (h : issuer.Spec.ACME.PrivateKeySecretRef = none) :
    RememberIssuerSecret rs issuer =
      removeIssuer rs (newObjectName issuer.Namespace issuer.Name) := by
  simp [RememberIssuerSecret, h]

theorem RememberIssuerSecret_of_some {issuer : Issuer} {ref : SecretReference}
    (rs : ReferencedSecrets) (h : issuer.Spec.ACME.PrivateKeySecretRef = some ref) :
    RememberIssuerSecret rs issuer =
      updateIssuerSecret rs (newObjectName issuer.Namespace issuer.Name)
        (newObjectName ref.Namespace ref.Name) := by
  simp [RememberIssuerSecret, h]

theorem IssuerNamesFor_fst (rs : ReferencedSecrets) (s : ObjectName) :
    (IssuerNamesFor rs s).1 = rs.secretToIssuers s := by
  unfold IssuerNamesFor
  cases rs.secretToIssuers s <;> rfl

theorem IssuerNamesFor_snd (rs : ReferencedSecrets) (s : ObjectName) :
    (IssuerNamesFor rs s).2 = rs := by
  unfold IssuerNamesFor
  cases rs.secretToIssuers s <;> rfl

theorem Issuer.make_ref (ns name : String) (ref : Option SecretReference) :
    (Issuer.make ns name ref).Spec.ACME.PrivateKeySecretRef = ref := rfl

/-! ## The invariant is kept by every call -/

theorem inv_new : Inv NewReferencedSecrets where
  fwd := by intro i s h; simp [NewReferencedSecrets] at h
  rev := by rintro s i ⟨set, h, _⟩; simp [NewReferencedSecrets] at h
  nonempty := by intro s set h; simp [NewReferencedSecrets] at h

theorem inv_removeIssuer {rs : ReferencedSecrets} (hinv : Inv rs) (i : ObjectName) :
    Inv (removeIssuer rs i).2 where
  fwd := by
    intro j s h
    rw [removeIssuer_issuerToSecret] at h
    by_cases hj : j = i
    · simp [hj] at h
    · simp only [hj, if_false] at h
      exact (references_removeIssuer rs i s j).mpr ⟨hinv.fwd j s h, fun hh => hj hh.1⟩
  rev := by
    intro s j h
    obtain ⟨hr, hn⟩ := (references_removeIssuer rs i s j).mp h
    have hf := hinv.rev s j hr
    have hj : j ≠ i := fun hh => hn ⟨hh, hh ▸ hf⟩
    rw [removeIssuer_issuerToSecret]
    simp [hj, hf]
  nonempty := by
    intro s set h
    cases hi : rs.issuerToSecret i with
    | none =>
      rw [removeIssuer_of_none hi] at h
      exact hinv.nonempty s set h
    | some s0 =>
      by_cases hs : s = s0
      · subst hs
        rw [removeIssuer_secretToIssuers_same hi] at h
        cases hset : rs.secretToIssuers s with
        | none => simp [hset] at h
        | some set0 =>
          simp only [hset] at h
          by_cases he : set0.erase i = ∅
          · simp [he] at h
          · simp only [he, if_false, Option.some.injEq] at h
            subst h
            exact Finset.nonempty_iff_ne_empty.mpr he
      · rw [removeIssuer_secretToIssuers_ne hi hs] at h
        exact hinv.nonempty s set h

theorem inv_updateIssuerSecret {rs : ReferencedSecrets} (hinv : Inv rs) (i s : ObjectName) :
    Inv (updateIssuerSecret rs i s).2 := by
  by_cases h : rs.issuerToSecret i = some s
  · rw [updateIssuerSecret_of_eq h]
    exact hinv
  · have hrem := inv_removeIssuer hinv i
    refine ⟨?_, ?_, ?_⟩
    · intro j s1 hj
      rw [updateIssuerSecret_issuerToSecret] at hj
      rw [references_updateIssuerSecret h]
      by_cases hji : j = i
      · simp only [hji, if_true, Option.some.injEq] at hj
        exact Or.inl ⟨hj.symm, hji⟩
      · simp only [hji, if_false] at hj
        refine Or.inr (hrem.fwd j s1 ?_)
        rw [removeIssuer_issuerToSecret]
        simp [hji, hj]
    · intro s1 j hj
      rw [references_updateIssuerSecret h] at hj
      rw [updateIssuerSecret_issuerToSecret]
      rcases hj with ⟨rfl, rfl⟩ | hj
      · simp
      · have hf := hrem.rev s1 j hj
        rw [removeIssuer_issuerToSecret] at hf
        by_cases hji : j = i
        · simp [hji] at hf
        · simpa [hji] using hf
    · intro s1 set hset
      rw [updateIssuerSecret_of_ne h] at hset
      by_cases hs : s1 = s
      · subst hs
        simp only [Function.update_same, Option.some.injEq] at hset
        subst hset
        exact Finset.insert_nonempty _ _
      · simp only [Function.update_noteq hs] at hset
        exact hrem.nonempty s1 set hset

theorem inv_step {rs : ReferencedSecrets} (hinv : Inv rs) (c : Call) : Inv (step rs c) := by
  cases c with
  | remember issuer =>
    show Inv (RememberIssuerSecret rs issuer).2
    cases href : issuer.Spec.ACME.PrivateKeySecretRef with
    | none =>
      rw [RememberIssuerSecret_of_none rs href]
      exact inv_removeIssuer hinv _
    | some ref =>
      rw [RememberIssuerSecret_of_some rs href]
      exact inv_updateIssuerSecret hinv _ _
  | remove issuerName => exact inv_removeIssuer hinv _

theorem inv_runFrom {rs : ReferencedSecrets} (hinv : Inv rs) (calls : List Call) :
    Inv (runFrom rs calls) := by
  induction calls generalizing rs with
  | nil => exact hinv
  | cons c cs ih => exact ih (inv_step hinv c)

theorem inv_run (calls : List Call) : Inv (run calls) :=
  inv_runFrom inv_new calls

/-! ## No reachable state has a key with an empty namespace -/

theorem newObjectName_namespace_ne (ns name : String) :
    (newObjectName ns name).Namespace ≠ "" := by
  unfold newObjectName
  by_cases h : ns = ""
  · simp [h]
  · simp [h]

theorem removeIssuer_secretToIssuers_of_none (rs : ReferencedSecrets) (i k : ObjectName)
    (h : rs.secretToIssuers k = none) : (removeIssuer rs i).2.secretToIssuers k = none := by
  cases hi : rs.issuerToSecret i with
  | none => rw [removeIssuer_of_none hi]; exact h
  | some s0 =>
    by_cases hk : k = s0
    · subst hk
      rw [removeIssuer_secretToIssuers_same hi, h]
    · rw [removeIssuer_secretToIssuers_ne hi hk, h]

theorem noEmptyKey_removeIssuer {rs : ReferencedSecrets} (h : NoEmptyNamespaceKey rs)
    (i : ObjectName) : NoEmptyNamespaceKey (removeIssuer rs i).2 := by
  intro k hk
  constructor
  · rw [removeIssuer_issuerToSecret]
    split
    · rfl
    · exact (h k hk).1
  · exact removeIssuer_secretToIssuers_of_none rs i k (h k hk).2

theorem noEmptyKey_updateIssuerSecret {rs : ReferencedSecrets} (h : NoEmptyNamespaceKey rs)
    (i s : ObjectName) (hi : i.Namespace ≠ "") (hs : s.Namespace ≠ "") :
    NoEmptyNamespaceKey (updateIssuerSecret rs i s).2 := by
  intro k hk
  have hki : k ≠ i := fun hh => hi (hh ▸ hk)
  have hks : k ≠ s := fun hh => hs (hh ▸ hk)
  constructor
  · rw [updateIssuerSecret_issuerToSecret]
    simp [hki, (h k hk).1]
  · by_cases hold : rs.issuerToSecret i = some s
    · rw [updateIssuerSecret_of_eq hold]
      exact (h k hk).2
    · rw [updateIssuerSecret_of_ne hold]
      simp only [Function.update_noteq hks]
      exact removeIssuer_secretToIssuers_of_none rs i k (h k hk).2

theorem noEmptyKey_step {rs : ReferencedSecrets} (h : NoEmptyNamespaceKey rs) (c : Call) :
    NoEmptyNamespaceKey (step rs c) := by
  cases c with
  | remember issuer =>
    show NoEmptyNamespaceKey (RememberIssuerSecret rs issuer).2
    cases href : issuer.Spec.ACME.PrivateKeySecretRef with
    | none =>
      rw [RememberIssuerSecret_of_none rs href]
      exact noEmptyKey_removeIssuer h _
    | some ref =>
      rw [RememberIssuerSecret_of_some rs href]
      exact noEmptyKey_updateIssuerSecret h _ _ (newObjectName_namespace_ne _ _)
        (newObjectName_namespace_ne _ _)
  | remove issuerName => exact noEmptyKey_removeIssuer h _

theorem noEmptyKey_run (calls : List Call) : NoEmptyNamespaceKey (run calls) := by
  have key : ∀ (cs : List Call) (rs : ReferencedSecrets),
      NoEmptyNamespaceKey rs → NoEmptyNamespaceKey (runFrom rs cs) := by
    intro cs
    induction cs with
    | nil => intro rs h; exact h
    | cons c cs ih => intro rs h; exact ih _ (noEmptyKey_step h c)
  exact key calls _ (fun _ _ => ⟨rfl, rfl⟩)

/-! ## The forward map decides the state -/

theorem RememberIssuerSecret_eq (rs : ReferencedSecrets) (issuer : Issuer) :
    RememberIssuerSecret rs issuer =
      match issuer.secretName with
      | none => removeIssuer rs issuer.objectName
      | some s => updateIssuerSecret rs issuer.objectName s := by
  unfold RememberIssuerSecret Issuer.secretName Issuer.objectName
  cases issuer.Spec.ACME.PrivateKeySecretRef <;> rfl

theorem removeIssuer_issuerToSecret_eq (rs : ReferencedSecrets) (i : ObjectName) :
    (removeIssuer rs i).2.issuerToSecret = Function.update rs.issuerToSecret i none := by
  funext j
  rw [removeIssuer_issuerToSecret]
  by_cases hj : j = i
  · subst hj
    simp
  · simp [hj, Function.update_noteq]

theorem RememberIssuerSecret_issuerToSecret (rs : ReferencedSecrets) (issuer : Issuer) :
    (RememberIssuerSecret rs issuer).2.issuerToSecret =
      Function.update rs.issuerToSecret issuer.objectName issuer.secretName := by
  rw [RememberIssuerSecret_eq]
  cases issuer.secretName with
  | none => exact removeIssuer_issuerToSecret_eq rs _
  | some s =>
    funext j
    show (updateIssuerSecret rs issuer.objectName s).2.issuerToSecret j = _
    rw [updateIssuerSecret_issuerToSecret]
    by_cases hj : j = issuer.objectName
    · subst hj
      simp
    · simp [hj, Function.update_noteq]

theorem RememberIssuerSecret_fst (rs : ReferencedSecrets) (issuer : Issuer) :
    (RememberIssuerSecret rs issuer).1 =
      !decide (rs.issuerToSecret issuer.objectName = issuer.secretName) := by
  rw [RememberIssuerSecret_eq]
  cases hs : issuer.secretName with
  | none =>
    show (removeIssuer rs issuer.objectName).1 = _
    rw [removeIssuer_fst]
    cases rs.issuerToSecret issuer.objectName <;> simp
  | some s =>
    show (updateIssuerSecret rs issuer.objectName s).1 = _
    by_cases h : rs.issuerToSecret issuer.objectName = some s
    · simp [updateIssuerSecret_of_eq h, h]
    · simp [updateIssuerSecret_of_ne h, h]

theorem inv_RememberIssuerSecret {rs : ReferencedSecrets} (hinv : Inv rs) (issuer : Issuer) :
    Inv (RememberIssuerSecret rs issuer).2 :=
  inv_step hinv (.remember issuer)

theorem mem_iff_of_inv {rs : ReferencedSecrets} (hinv : Inv rs) {s : ObjectName}
    {set : ObjectNameSet} (hset : rs.secretToIssuers s = some set) (j : ObjectName) :
    j ∈ set ↔ rs.issuerToSecret j = some s := by
  constructor
  · intro hj
    exact hinv.rev s j ⟨set, hset, hj⟩
  · intro hj
    obtain ⟨set2, h2, hmem⟩ := hinv.fwd j s hj
    rw [hset] at h2
    cases h2
    exact hmem

theorem inv_ext {a b : ReferencedSecrets} (ha : Inv a) (hb : Inv b)
    (h : a.issuerToSecret = b.issuerToSecret) : a.secretToIssuers = b.secretToIssuers := by
  have key : ∀ (x y : ReferencedSecrets), Inv x → Inv y → x.issuerToSecret = y.issuerToSecret →
      ∀ s set, x.secretToIssuers s = some set → y.secretToIssuers s = some set := by
    intro x y hx hy hxy s set hset
    obtain ⟨j, hj⟩ := hx.nonempty s set hset
    have hf : y.issuerToSecret j = some s := by
      rw [← hxy]
      exact hx.rev s j ⟨set, hset, hj⟩
    obtain ⟨set2, h2, _⟩ := hy.fwd j s hf
    rw [h2]
    congr 1
    ext k
    rw [mem_iff_of_inv hy h2, mem_iff_of_inv hx hset, hxy]
  funext s
  cases hsa : a.secretToIssuers s with
  | some set => exact (key a b ha hb h s set hsa).symm
  | none =>
    cases hsb : b.secretToIssuers s with
    | none => rfl
    | some set =>
      have := key b a hb ha h.symm s set hsb
      rw [hsa] at this
      cases this

/-! ## Where the checked steps fail and where they do not -/

theorem updateIssuerSecretChecked_eq (rs : ReferencedSecrets) (i s : ObjectName) :
    updateIssuerSecretChecked rs i s = .ok (updateIssuerSecret rs i s) := by
  by_cases h : rs.issuerToSecret i = some s
  · rw [updateIssuerSecret_of_eq h]
    simp [updateIssuerSecretChecked, h]
  · rw [updateIssuerSecret_of_ne h]
    unfold updateIssuerSecretChecked
    have hu : (match rs.issuerToSecret i with
        | some oldSecretName => oldSecretName == s
        | none => false) = false := by
      cases hold : rs.issuerToSecret i with
      | none => rfl
      | some s0 =>
        have : s0 ≠ s := fun hh => h (by rw [hold, hh])
        simp [this]
    simp only [hu]
    cases (removeIssuer rs i).2.secretToIssuers s <;> simp [addChecked]

theorem RememberIssuerSecretChecked_toGo (rs : ReferencedSecrets) (issuer : Issuer) :
    RememberIssuerSecretChecked rs issuer.toGo = .ok (RememberIssuerSecret rs issuer) := by
  unfold RememberIssuerSecretChecked RememberIssuerSecret Issuer.toGo
  simp only [derefChecked]
  cases issuer.Spec.ACME.PrivateKeySecretRef with
  | none => simp
  | some ref => simp [updateIssuerSecretChecked_eq]

theorem RememberIssuerSecretChecked_nil_ACME (rs : ReferencedSecrets) (ns name : String) :
    RememberIssuerSecretChecked rs
        (some { Namespace := ns, Name := name, Spec := { ACME := none } }) =
      .error .nilPointerDereference := rfl

theorem RememberIssuerSecretChecked_nil_issuer (rs : ReferencedSecrets) :
    RememberIssuerSecretChecked rs none = .error .nilPointerDereference := rfl

/-! ## Consistency of the two maps in every reachable state -/

/-- Claim C1 (forward-to-reverse consistency): in every state reached from
`NewReferencedSecrets()` by a finite sequence of `RememberIssuerSecret` and
`RemoveIssuer` calls, if `issuerToSecret[i] = s` then `secretToIssuers` has an
entry for `s`, the issuer `i` is a member of it, and `IssuerNamesFor(s)` returns
a set containing `i`. -/
theorem forward_link_in_reverse_set (calls : List Call) (i s : ObjectName)
    (h : (run calls).issuerToSecret i = some s) :
    (∃ set, (run calls).secretToIssuers s = some set ∧ i ∈ set) ∧
      (∃ set, (IssuerNamesFor (run calls) s).1 = some set ∧ i ∈ set) := by
  obtain ⟨set, hset, hi⟩ := (inv_run calls).fwd i s h
  exact ⟨⟨set, hset, hi⟩, ⟨set, by simp [IssuerNamesFor, hset], hi⟩⟩

theorem forward_link_in_reverse_set_witness :
    (run [.remember (Issuer.make "t" "iss1" (some ⟨"t", "sec1"⟩)),
          .remember (Issuer.make "" "iss2" (some ⟨"t", "sec1"⟩)),
          .remove ⟨"t", "iss1"⟩]).issuerToSecret ⟨"default", "iss2"⟩ = some ⟨"t", "sec1"⟩ ∧
    ((∃ set, (run [.remember (Issuer.make "t" "iss1" (some ⟨"t", "sec1"⟩)),
          .remember (Issuer.make "" "iss2" (some ⟨"t", "sec1"⟩)),
          .remove ⟨"t", "iss1"⟩]).secretToIssuers ⟨"t", "sec1"⟩ = some set ∧
        (⟨"default", "iss2"⟩ : ObjectName) ∈ set) ∧
      (∃ set, (IssuerNamesFor (run [.remember (Issuer.make "t" "iss1" (some ⟨"t", "sec1"⟩)),
          .remember (Issuer.make "" "iss2" (some ⟨"t", "sec1"⟩)),
          .remove ⟨"t", "iss1"⟩]) ⟨"t", "sec1"⟩).1 = some set ∧
        (⟨"default", "iss2"⟩ : ObjectName) ∈ set)) :=
  ⟨by decide, forward_link_in_reverse_set _ _ _ (by decide)⟩

/-- Claim C2 (reverse-to-forward consistency): in every state reached from
`NewReferencedSecrets()` by a finite sequence of `RememberIssuerSecret` and
`RemoveIssuer` calls, a member `i` of `secretToIssuers[s]` has
`issuerToSecret[i] = s`; hence an issuer without a forward link is in no
reverse set, and no issuer is in the reverse sets of two different secrets. -/
theorem reverse_member_has_forward_link (calls : List Call) :
    (∀ i s set, (run calls).secretToIssuers s = some set → i ∈ set →
        (run calls).issuerToSecret i = some s) ∧
    (∀ i, (run calls).issuerToSecret i = none →
        ∀ s set, (run calls).secretToIssuers s = some set → i ∉ set) ∧
    (∀ i s1 s2 set1 set2, (run calls).secretToIssuers s1 = some set1 → i ∈ set1 →
        (run calls).secretToIssuers s2 = some set2 → i ∈ set2 → s1 = s2) := by
  have hinv := inv_run calls
  refine ⟨?_, ?_, ?_⟩
  · intro i s set hset hi
    exact hinv.rev s i ⟨set, hset, hi⟩
  · intro i hnone s set hset hi
    have := hinv.rev s i ⟨set, hset, hi⟩
    rw [hnone] at this
    cases this
  · intro i s1 s2 set1 set2 h1 hi1 h2 hi2
    have e1 := hinv.rev s1 i ⟨set1, h1, hi1⟩
    have e2 := hinv.rev s2 i ⟨set2, h2, hi2⟩
    rw [e1] at e2
    exact Option.some.inj e2

theorem reverse_member_has_forward_link_witness :
    (run [.remember (Issuer.make "t" "iss1" (some ⟨"t", "sec1"⟩)),
          .remember (Issuer.make "t" "iss2" (some ⟨"", "sec2"⟩)),
          .remember (Issuer.make "t" "iss1" (some ⟨"", "sec2"⟩))]).issuerToSecret ⟨"t", "iss1"⟩
      = some ⟨"default", "sec2"⟩ :=
  (reverse_member_has_forward_link _).1 ⟨"t", "iss1"⟩ ⟨"default", "sec2"⟩
    {⟨"t", "iss1"⟩, ⟨"t", "iss2"⟩} (by decide) (by decide)

/-- Claim C3 (no dangling sets): in every state reached from
`NewReferencedSecrets()` by a finite sequence of `RememberIssuerSecret` and
`RemoveIssuer` calls, every key of `secretToIssuers` maps to a non-empty set,
and `IssuerNamesFor` returns either nil or a non-empty set, never an empty
one. -/
theorem no_dangling_sets (calls : List Call) (s : ObjectName) :
    (∀ set, (run calls).secretToIssuers s = some set → set.Nonempty) ∧
    ((IssuerNamesFor (run calls) s).1 = none ∨
      ∃ set, (IssuerNamesFor (run calls) s).1 = some set ∧ set.Nonempty) ∧
    (IssuerNamesFor (run calls) s).1 ≠ some ∅ := by
  have hne := (inv_run calls).nonempty s
  refine ⟨hne, ?_, ?_⟩
  · cases hset : (run calls).secretToIssuers s with
    | none => exact Or.inl (by simp [IssuerNamesFor, hset])
    | some set => exact Or.inr ⟨set, by simp [IssuerNamesFor, hset], hne set hset⟩
  · cases hset : (run calls).secretToIssuers s with
    | none => simp [IssuerNamesFor, hset]
    | some set =>
      have := hne set hset
      simp only [IssuerNamesFor, hset, ne_eq, Option.some.injEq]
      exact Finset.nonempty_iff_ne_empty.mp this

theorem no_dangling_sets_witness :
    ({⟨"t", "iss2"⟩} : ObjectNameSet).Nonempty :=
  (no_dangling_sets
    [.remember (Issuer.make "t" "iss1" (some ⟨"t", "sec1"⟩)),
     .remember (Issuer.make "t" "iss2" (some ⟨"t", "sec1"⟩)),
     .remove ⟨"t", "iss1"⟩] ⟨"t", "sec1"⟩).1 {⟨"t", "iss2"⟩} (by decide)

/-! ## The changed signal of `RememberIssuerSecret` -/

/-- Claim C4 (changed signal with a secret reference): for every index state
and every issuer carrying a secret reference, with `i` and `s` the normalised
issuer and secret names, `RememberIssuerSecret` returns false exactly when
`issuerToSecret[i] = s` held before the call, and then the state is unchanged;
otherwise it returns true and afterwards `issuerToSecret[i] = s` and `i` is a
member of `secretToIssuers[s]`. -/
theorem RememberIssuerSecret_changed_signal (rs : ReferencedSecrets) (issuer : Issuer)
    (ref : SecretReference) (href : issuer.Spec.ACME.PrivateKeySecretRef = some ref) :
    ((RememberIssuerSecret rs issuer).1 = false ↔
        rs.issuerToSecret (newObjectName issuer.Namespace issuer.Name) =
          some (newObjectName ref.Namespace ref.Name)) ∧
    (rs.issuerToSecret (newObjectName issuer.Namespace issuer.Name) =
          some (newObjectName ref.Namespace ref.Name) →
        (RememberIssuerSecret rs issuer).2.secretToIssuers = rs.secretToIssuers ∧
        (RememberIssuerSecret rs issuer).2.issuerToSecret = rs.issuerToSecret) ∧
    (rs.issuerToSecret (newObjectName issuer.Namespace issuer.Name) ≠
          some (newObjectName ref.Namespace ref.Name) →
        (RememberIssuerSecret rs issuer).1 = true ∧
        (RememberIssuerSecret rs issuer).2.issuerToSecret
            (newObjectName issuer.Namespace issuer.Name) =
          some (newObjectName ref.Namespace ref.Name) ∧
        ∃ set, (RememberIssuerSecret rs issuer).2.secretToIssuers
            (newObjectName ref.Namespace ref.Name) = some set ∧
          newObjectName issuer.Namespace issuer.Name ∈ set) := by
  rw [RememberIssuerSecret_of_some rs href]
  refine ⟨updateIssuerSecret_fst rs _ _, ?_, ?_⟩
  · intro h
    rw [updateIssuerSecret_of_eq h]
    exact ⟨rfl, rfl⟩
  · intro h
    refine ⟨?_, ?_, ?_⟩
    · rw [updateIssuerSecret_of_ne h]
    · rw [updateIssuerSecret_issuerToSecret]
      simp
    · exact (references_updateIssuerSecret h _ _).mpr (Or.inl ⟨rfl, rfl⟩)

theorem RememberIssuerSecret_changed_signal_witness :
    (Issuer.make "" "iss1" (some ⟨"t", "sec1"⟩)).Spec.ACME.PrivateKeySecretRef
        = some ⟨"t", "sec1"⟩ ∧
    (RememberIssuerSecret NewReferencedSecrets (Issuer.make "" "iss1" (some ⟨"t", "sec1"⟩))).1
        = true ∧
    (RememberIssuerSecret
        (RememberIssuerSecret NewReferencedSecrets
          (Issuer.make "" "iss1" (some ⟨"t", "sec1"⟩))).2
        (Issuer.make "" "iss1" (some ⟨"t", "sec1"⟩))).1 = false :=
  ⟨rfl,
   ((RememberIssuerSecret_changed_signal NewReferencedSecrets
      (Issuer.make "" "iss1" (some ⟨"t", "sec1"⟩)) ⟨"t", "sec1"⟩ rfl).2.2 (by decide)).1,
   (RememberIssuerSecret_changed_signal
      (RememberIssuerSecret NewReferencedSecrets
        (Issuer.make "" "iss1" (some ⟨"t", "sec1"⟩))).2
      (Issuer.make "" "iss1" (some ⟨"t", "sec1"⟩)) ⟨"t", "sec1"⟩ rfl).1.mpr (by decide)⟩

/-- Claim C5 (single secret per issuer): for every state reached from the
empty index, every issuer and every two secret references `A` and `B` whose
normalised names differ, after `RememberIssuerSecret` with `A` followed by
`RememberIssuerSecret` of the same issuer with `B`, the normalised issuer name
is a member of `IssuerNamesFor(B)` and is not a member of `IssuerNamesFor(A)`. -/
theorem single_secret_per_issuer (calls : List Call) (ns name : String) (A B : SecretReference)
    (hAB : newObjectName A.Namespace A.Name ≠ newObjectName B.Namespace B.Name) :
    (∃ set,
        (IssuerNamesFor
          (RememberIssuerSecret
            (RememberIssuerSecret (run calls) (Issuer.make ns name (some A))).2
            (Issuer.make ns name (some B))).2
          (newObjectName B.Namespace B.Name)).1 = some set ∧
        newObjectName ns name ∈ set) ∧
    (∀ set,
        (IssuerNamesFor
          (RememberIssuerSecret
            (RememberIssuerSecret (run calls) (Issuer.make ns name (some A))).2
            (Issuer.make ns name (some B))).2
          (newObjectName A.Namespace A.Name)).1 = some set →
        newObjectName ns name ∉ set) := by
  simp only [IssuerNamesFor_fst]
  rw [RememberIssuerSecret_of_some (run calls) (Issuer.make_ref ns name (some A)),
    RememberIssuerSecret_of_some _ (Issuer.make_ref ns name (some B))]
  show References _ _ _ ∧ _
  have h1 : (updateIssuerSecret (run calls) (newObjectName ns name)
      (newObjectName A.Namespace A.Name)).2.issuerToSecret (newObjectName ns name) =
      some (newObjectName A.Namespace A.Name) := by
    rw [updateIssuerSecret_issuerToSecret]
    simp [Issuer.make]
  have hne : (updateIssuerSecret (run calls) (newObjectName ns name)
      (newObjectName A.Namespace A.Name)).2.issuerToSecret (newObjectName ns name) ≠
      some (newObjectName B.Namespace B.Name) := by
    rw [h1]
    exact fun hh => hAB (Option.some.inj hh)
  constructor
  · exact (references_updateIssuerSecret hne _ _).mpr (Or.inl ⟨rfl, rfl⟩)
  · intro set hset hmem
    have href := (references_updateIssuerSecret hne _ _).mp ⟨set, hset, hmem⟩
    rcases href with ⟨hs, _⟩ | href
    · exact hAB hs
    · exact ((references_removeIssuer _ _ _ _).mp href).2 ⟨rfl, h1⟩

theorem single_secret_per_issuer_witness :
    newObjectName "t" "secA" ≠ newObjectName "" "secB" ∧
    ((∃ set,
        (IssuerNamesFor
          (RememberIssuerSecret
            (RememberIssuerSecret (run [.remember (Issuer.make "t" "other" (some ⟨"t", "secA"⟩))])
              (Issuer.make "t" "iss" (some ⟨"t", "secA"⟩))).2
            (Issuer.make "t" "iss" (some ⟨"", "secB"⟩))).2
          (newObjectName "" "secB")).1 = some set ∧
        newObjectName "t" "iss" ∈ set) ∧
    (∀ set,
        (IssuerNamesFor
          (RememberIssuerSecret
            (RememberIssuerSecret (run [.remember (Issuer.make "t" "other" (some ⟨"t", "secA"⟩))])
              (Issuer.make "t" "iss" (some ⟨"t", "secA"⟩))).2
            (Issuer.make "t" "iss" (some ⟨"", "secB"⟩))).2
          (newObjectName "t" "secA")).1 = some set →
        newObjectName "t" "iss" ∉ set)) :=
  ⟨by decide,
   single_secret_per_issuer [.remember (Issuer.make "t" "other" (some ⟨"t", "secA"⟩))]
     "t" "iss" ⟨"t", "secA"⟩ ⟨"", "secB"⟩ (by decide)⟩

/-- Claim C6 (idempotent no-op): for every index state and every issuer with a
secret reference, when `RememberIssuerSecret` is called twice in a row with the
same issuer and the same secret reference, the second call returns false and
both maps after the second call equal the maps after the first call. -/
theorem RememberIssuerSecret_twice (rs : ReferencedSecrets) (issuer : Issuer)
    (ref : SecretReference) (href : issuer.Spec.ACME.PrivateKeySecretRef = some ref) :
    (RememberIssuerSecret (RememberIssuerSecret rs issuer).2 issuer).1 = false ∧
    (RememberIssuerSecret (RememberIssuerSecret rs issuer).2 issuer).2.secretToIssuers =
      (RememberIssuerSecret rs issuer).2.secretToIssuers ∧
    (RememberIssuerSecret (RememberIssuerSecret rs issuer).2 issuer).2.issuerToSecret =
      (RememberIssuerSecret rs issuer).2.issuerToSecret := by
  have h1 : (RememberIssuerSecret rs issuer).2.issuerToSecret
      (newObjectName issuer.Namespace issuer.Name) =
      some (newObjectName ref.Namespace ref.Name) := by
    rw [RememberIssuerSecret_of_some rs href, updateIssuerSecret_issuerToSecret]
    simp
  rw [RememberIssuerSecret_of_some (RememberIssuerSecret rs issuer).2 href,
    updateIssuerSecret_of_eq h1]
  exact ⟨rfl, rfl, rfl⟩

theorem RememberIssuerSecret_twice_witness :
    (Issuer.make "t" "iss1" (some ⟨"", "sec1"⟩)).Spec.ACME.PrivateKeySecretRef
        = some ⟨"", "sec1"⟩ ∧
    ((RememberIssuerSecret
        (RememberIssuerSecret (run [.remember (Issuer.make "t" "iss1" (some ⟨"t", "sec0"⟩))])
          (Issuer.make "t" "iss1" (some ⟨"", "sec1"⟩))).2
        (Issuer.make "t" "iss1" (some ⟨"", "sec1"⟩))).1 = false ∧
    (RememberIssuerSecret
        (RememberIssuerSecret (run [.remember (Issuer.make "t" "iss1" (some ⟨"t", "sec0"⟩))])
          (Issuer.make "t" "iss1" (some ⟨"", "sec1"⟩))).2
        (Issuer.make "t" "iss1" (some ⟨"", "sec1"⟩))).2.secretToIssuers =
      (RememberIssuerSecret (run [.remember (Issuer.make "t" "iss1" (some ⟨"t", "sec0"⟩))])
          (Issuer.make "t" "iss1" (some ⟨"", "sec1"⟩))).2.secretToIssuers ∧
    (RememberIssuerSecret
        (RememberIssuerSecret (run [.remember (Issuer.make "t" "iss1" (some ⟨"t", "sec0"⟩))])
          (Issuer.make "t" "iss1" (some ⟨"", "sec1"⟩))).2
        (Issuer.make "t" "iss1" (some ⟨"", "sec1"⟩))).2.issuerToSecret =
      (RememberIssuerSecret (run [.remember (Issuer.make "t" "iss1" (some ⟨"t", "sec0"⟩))])
          (Issuer.make "t" "iss1" (some ⟨"", "sec1"⟩))).2.issuerToSecret) :=
  ⟨rfl, RememberIssuerSecret_twice _ _ ⟨"", "sec1"⟩ rfl⟩

/-! ## Normalisation of names -/

/-- Claim C7 (namespace normalisation on update): for every index state, every
name `x` and every secret reference, `RememberIssuerSecret` with issuer
namespace "" and name `x` returns the same boolean and the same maps as with
issuer namespace "default" and name `x`; the same holds when the empty
namespace is on the secret reference. `newObjectName "" n` equals
`newObjectName "default" n`, and `newObjectName` keeps a non-empty namespace. -/
theorem namespace_normalisation_on_update (rs : ReferencedSecrets) (x : String) :
    (∀ ref : Option SecretReference,
      RememberIssuerSecret rs (Issuer.make "" x ref) =
        RememberIssuerSecret rs (Issuer.make "default" x ref)) ∧
    (∀ ns y : String,
      RememberIssuerSecret rs (Issuer.make ns x (some ⟨"", y⟩)) =
        RememberIssuerSecret rs (Issuer.make ns x (some ⟨"default", y⟩))) ∧
    newObjectName "" x = newObjectName "default" x ∧
    (∀ ns : String, ns ≠ "" → newObjectName ns x = ⟨ns, x⟩) := by
  refine ⟨?_, ?_, ?_, ?_⟩
  · intro ref
    rfl
  · intro ns y
    rfl
  · rfl
  · intro ns hns
    simp [newObjectName, hns]

theorem namespace_normalisation_on_update_witness :
    newObjectName "t" "x" = ⟨"t", "x"⟩ :=
  (namespace_normalisation_on_update NewReferencedSecrets "x").2.2.2 "t" (by decide)

/-- Claim C8, as stated, fails: after `RememberIssuerSecret` of the issuer with
namespace "" and name "x" and secret reference with namespace "" and name "y"
on the empty index, `RemoveIssuer` of the name ("", "x") returns false while
`RemoveIssuer` of ("default", "x") returns true, and `IssuerNamesFor` of
("", "y") returns nil while `IssuerNamesFor` of ("default", "y") returns the
set holding the issuer. -/
theorem removal_and_lookup_take_name_as_passed :
    (RemoveIssuer
        (RememberIssuerSecret NewReferencedSecrets (Issuer.make "" "x" (some ⟨"", "y"⟩))).2
        ⟨"", "x"⟩).1 = false ∧
    (RemoveIssuer
        (RememberIssuerSecret NewReferencedSecrets (Issuer.make "" "x" (some ⟨"", "y"⟩))).2
        ⟨"default", "x"⟩).1 = true ∧
    (IssuerNamesFor
        (RememberIssuerSecret NewReferencedSecrets (Issuer.make "" "x" (some ⟨"", "y"⟩))).2
        ⟨"", "y"⟩).1 = none ∧
    (IssuerNamesFor
        (RememberIssuerSecret NewReferencedSecrets (Issuer.make "" "x" (some ⟨"", "y"⟩))).2
        ⟨"default", "y"⟩).1 = some {⟨"default", "x"⟩} := by
  decide

/-- Claim C8, amended: `RemoveIssuer` and `IssuerNamesFor` use the name as it
is passed. For names built by `newObjectName`, the namespaces "" and "default"
behave identically in both methods, and after `RememberIssuerSecret` (issuer
namespace "", name `x`, secret namespace "", name `y`) on the empty index,
`RemoveIssuer (newObjectName "" x)` returns true and
`IssuerNamesFor (newObjectName "" y)` contains the issuer. For a name whose
namespace is the empty string itself, in every state reached from the empty
index `RemoveIssuer` returns false and leaves both maps unchanged, and
`IssuerNamesFor` returns nil. -/
theorem normalisation_only_through_newObjectName (calls : List Call) (x y : String) :
    (∀ rs : ReferencedSecrets,
      RemoveIssuer rs (newObjectName "" x) = RemoveIssuer rs (newObjectName "default" x) ∧
      IssuerNamesFor rs (newObjectName "" y) = IssuerNamesFor rs (newObjectName "default" y)) ∧
    (RemoveIssuer
        (RememberIssuerSecret NewReferencedSecrets (Issuer.make "" x (some ⟨"", y⟩))).2
        (newObjectName "" x)).1 = true ∧
    (∃ set,
      (IssuerNamesFor
        (RememberIssuerSecret NewReferencedSecrets (Issuer.make "" x (some ⟨"", y⟩))).2
        (newObjectName "" y)).1 = some set ∧ newObjectName "" x ∈ set) ∧
    (RemoveIssuer (run calls) ⟨"", x⟩).1 = false ∧
    (RemoveIssuer (run calls) ⟨"", x⟩).2.secretToIssuers = (run calls).secretToIssuers ∧
    (RemoveIssuer (run calls) ⟨"", x⟩).2.issuerToSecret = (run calls).issuerToSecret ∧
    (IssuerNamesFor (run calls) ⟨"", y⟩).1 = none := by
  have hnew : NewReferencedSecrets.issuerToSecret (newObjectName "" x) ≠
      some (newObjectName "" y) := by
    simp [NewReferencedSecrets]
  have hrem : ∀ rs : ReferencedSecrets,
      RememberIssuerSecret rs (Issuer.make "" x (some ⟨"", y⟩)) =
        updateIssuerSecret rs (newObjectName "" x) (newObjectName "" y) := fun _ => rfl
  refine ⟨fun rs => ⟨rfl, rfl⟩, ?_, ?_, ?_⟩
  · rw [hrem]
    unfold RemoveIssuer
    rw [removeIssuer_fst, updateIssuerSecret_issuerToSecret]
    simp
  · rw [hrem, IssuerNamesFor_fst]
    exact (references_updateIssuerSecret hnew _ _).mpr (Or.inl ⟨rfl, rfl⟩)
  · have hx := (noEmptyKey_run calls ⟨"", x⟩ rfl).1
    have hy := (noEmptyKey_run calls ⟨"", y⟩ rfl).2
    unfold RemoveIssuer
    rw [removeIssuer_of_none hx, IssuerNamesFor_fst]
    exact ⟨rfl, rfl, rfl, hy⟩

/-! ## Removal -/

/-- Claim C9 (clearing a reference is removal): for every index state and
every issuer whose secret reference is absent, `RememberIssuerSecret` returns
the same boolean and the same maps as `RemoveIssuer` applied to the normalised
name of the issuer, and the boolean is true exactly when the issuer had a
forward link before the call. -/
theorem clearing_reference_is_removal (rs : ReferencedSecrets) (issuer : Issuer)
    (href : issuer.Spec.ACME.PrivateKeySecretRef = none) :
    RememberIssuerSecret rs issuer =
      RemoveIssuer rs (newObjectName issuer.Namespace issuer.Name) ∧
    ((RememberIssuerSecret rs issuer).1 = true ↔
      (rs.issuerToSecret (newObjectName issuer.Namespace issuer.Name)).isSome = true) := by
  rw [RememberIssuerSecret_of_none rs href, removeIssuer_fst]
  exact ⟨rfl, Iff.rfl⟩

theorem clearing_reference_is_removal_witness :
    (Issuer.make "" "iss1" none).Spec.ACME.PrivateKeySecretRef = none ∧
    (RememberIssuerSecret (run [.remember (Issuer.make "" "iss1" (some ⟨"t", "sec1"⟩))])
        (Issuer.make "" "iss1" none) =
      RemoveIssuer (run [.remember (Issuer.make "" "iss1" (some ⟨"t", "sec1"⟩))])
        (newObjectName "" "iss1") ∧
    ((RememberIssuerSecret (run [.remember (Issuer.make "" "iss1" (some ⟨"t", "sec1"⟩))])
        (Issuer.make "" "iss1" none)).1 = true ↔
      ((run [.remember (Issuer.make "" "iss1" (some ⟨"t", "sec1"⟩))]).issuerToSecret
        (newObjectName "" "iss1")).isSome = true)) :=
  ⟨rfl, clearing_reference_is_removal _ (Issuer.make "" "iss1" none) rfl⟩

/-- Claim C10 (existence signal of `RemoveIssuer`): for every index state and
every issuer name `i`, `RemoveIssuer(i)` returns true exactly when `i` was a
key of `issuerToSecret` before the call; when it returns false both maps are
unchanged, and when it returns true `i` is no longer a key of
`issuerToSecret`. -/
theorem RemoveIssuer_existence_signal (rs : ReferencedSecrets) (i : ObjectName) :
    ((RemoveIssuer rs i).1 = true ↔ (rs.issuerToSecret i).isSome = true) ∧
    ((RemoveIssuer rs i).1 = false →
      (RemoveIssuer rs i).2.secretToIssuers = rs.secretToIssuers ∧
      (RemoveIssuer rs i).2.issuerToSecret = rs.issuerToSecret) ∧
    ((RemoveIssuer rs i).1 = true → (RemoveIssuer rs i).2.issuerToSecret i = none) := by
  unfold RemoveIssuer
  refine ⟨by rw [removeIssuer_fst], ?_, ?_⟩
  · intro h
    rw [removeIssuer_fst] at h
    have hnone : rs.issuerToSecret i = none := by
      cases hi : rs.issuerToSecret i with
      | none => rfl
      | some s => simp [hi] at h
    rw [removeIssuer_of_none hnone]
    exact ⟨rfl, rfl⟩
  · intro _
    rw [removeIssuer_issuerToSecret]
    simp

theorem RemoveIssuer_existence_signal_witness :
    (RemoveIssuer (run [.remember (Issuer.make "t" "iss1" (some ⟨"t", "sec1"⟩))])
        ⟨"t", "iss1"⟩).2.issuerToSecret ⟨"t", "iss1"⟩ = none ∧
    ((RemoveIssuer (run [.remember (Issuer.make "t" "iss1" (some ⟨"t", "sec1"⟩))])
        ⟨"t", "iss2"⟩).2.secretToIssuers =
      (run [.remember (Issuer.make "t" "iss1" (some ⟨"t", "sec1"⟩))]).secretToIssuers ∧
     (RemoveIssuer (run [.remember (Issuer.make "t" "iss1" (some ⟨"t", "sec1"⟩))])
        ⟨"t", "iss2"⟩).2.issuerToSecret =
      (run [.remember (Issuer.make "t" "iss1" (some ⟨"t", "sec1"⟩))]).issuerToSecret) :=
  ⟨(RemoveIssuer_existence_signal _ _).2.2 (by decide),
   (RemoveIssuer_existence_signal _ _).2.1 (by decide)⟩

/-- Claim C11 (`RemoveIssuer` is idempotent): for every index state and every
issuer name `i`, after one call `RemoveIssuer(i)` a second call `RemoveIssuer(i)`
returns false, and both maps after the two calls equal the maps after the
first call. -/
theorem RemoveIssuer_idempotent (rs : ReferencedSecrets) (i : ObjectName) :
    (RemoveIssuer (RemoveIssuer rs i).2 i).1 = false ∧
    (RemoveIssuer (RemoveIssuer rs i).2 i).2.secretToIssuers =
      (RemoveIssuer rs i).2.secretToIssuers ∧
    (RemoveIssuer (RemoveIssuer rs i).2 i).2.issuerToSecret =
      (RemoveIssuer rs i).2.issuerToSecret := by
  unfold RemoveIssuer
  have h : (removeIssuer rs i).2.issuerToSecret i = none := by
    rw [removeIssuer_issuerToSecret]
    simp
  rw [removeIssuer_of_none h]
  exact ⟨rfl, rfl, rfl⟩

/-! ## Lookup -/

/-- Claim C12 (lookup is read-only and exact): for every index state and every
secret name `s`, `IssuerNamesFor(s)` leaves both maps unchanged, returns nil
when `s` is not a key of `secretToIssuers`, and otherwise returns a set with
exactly the members of `secretToIssuers[s]`; in every state reached from the
empty index the returned set holds exactly the issuers `i` with
`issuerToSecret[i] = s`, and a nil result means that no issuer has that link. -/
theorem IssuerNamesFor_read_only_and_exact (rs : ReferencedSecrets) (calls : List Call)
    (s : ObjectName) :
    (IssuerNamesFor rs s).2.secretToIssuers = rs.secretToIssuers ∧
    (IssuerNamesFor rs s).2.issuerToSecret = rs.issuerToSecret ∧
    (rs.secretToIssuers s = none → (IssuerNamesFor rs s).1 = none) ∧
    (∀ set, rs.secretToIssuers s = some set → (IssuerNamesFor rs s).1 = some set) ∧
    (∀ set, (IssuerNamesFor (run calls) s).1 = some set →
      ∀ i, i ∈ set ↔ (run calls).issuerToSecret i = some s) ∧
    ((IssuerNamesFor (run calls) s).1 = none →
      ∀ i, (run calls).issuerToSecret i ≠ some s) := by
  simp only [IssuerNamesFor_fst, IssuerNamesFor_snd]
  refine ⟨trivial, trivial, fun h => h, fun set h => h, ?_, ?_⟩
  · intro set hset i
    exact mem_iff_of_inv (inv_run calls) hset i
  · intro hnone i hi
    obtain ⟨set, hset, _⟩ := (inv_run calls).fwd i s hi
    rw [hnone] at hset
    cases hset

theorem IssuerNamesFor_read_only_and_exact_witness :
    (⟨"t", "iss2"⟩ : ObjectName) ∈ ({⟨"t", "iss2"⟩, ⟨"t", "iss1"⟩} : ObjectNameSet) ↔
      (run [.remember (Issuer.make "t" "iss1" (some ⟨"t", "sec1"⟩)),
            .remember (Issuer.make "t" "iss2" (some ⟨"t", "sec1"⟩)),
            .remember (Issuer.make "t" "iss3" (some ⟨"t", "sec2"⟩))]).issuerToSecret
        ⟨"t", "iss2"⟩ = some ⟨"t", "sec1"⟩ :=
  (IssuerNamesFor_read_only_and_exact NewReferencedSecrets
    [.remember (Issuer.make "t" "iss1" (some ⟨"t", "sec1"⟩)),
     .remember (Issuer.make "t" "iss2" (some ⟨"t", "sec1"⟩)),
     .remember (Issuer.make "t" "iss3" (some ⟨"t", "sec2"⟩))]
    ⟨"t", "sec1"⟩).2.2.2.2.1 {⟨"t", "iss2"⟩, ⟨"t", "iss1"⟩} (by decide) ⟨"t", "iss2"⟩

/-! ## What a removal changes -/

/-- Claim C13 (removal touches only the removed issuer): for every state
reached from the empty index and every issuer `i` with `issuerToSecret[i] = s`,
`RemoveIssuer(i)` returns true; afterwards `IssuerNamesFor(s)` has exactly the
previous members of the set of `s` other than `i` (nil when none is left), the
forward link of every other issuer is unchanged, and the reverse set of every
other secret is unchanged. -/
theorem RemoveIssuer_touches_only_removed (calls : List Call) (i s : ObjectName)
    (h : (run calls).issuerToSecret i = some s) :
    (RemoveIssuer (run calls) i).1 = true ∧
    (∃ set, (run calls).secretToIssuers s = some set ∧
      (IssuerNamesFor (RemoveIssuer (run calls) i).2 s).1 =
        if set.erase i = ∅ then none else some (set.erase i)) ∧
    (∀ j, (∃ set, (IssuerNamesFor (RemoveIssuer (run calls) i).2 s).1 = some set ∧ j ∈ set) ↔
      ((∃ set, (run calls).secretToIssuers s = some set ∧ j ∈ set) ∧ j ≠ i)) ∧
    (∀ j, j ≠ i →
      (RemoveIssuer (run calls) i).2.issuerToSecret j = (run calls).issuerToSecret j) ∧
    (∀ s1, s1 ≠ s →
      (RemoveIssuer (run calls) i).2.secretToIssuers s1 = (run calls).secretToIssuers s1) := by
  simp only [IssuerNamesFor_fst]
  unfold RemoveIssuer
  refine ⟨?_, ?_, ?_, ?_, ?_⟩
  · rw [removeIssuer_fst, h]
    rfl
  · obtain ⟨set, hset, _⟩ := (inv_run calls).fwd i s h
    refine ⟨set, hset, ?_⟩
    rw [removeIssuer_secretToIssuers_same h, hset]
  · intro j
    have := references_removeIssuer (run calls) i s j
    unfold References at this
    rw [this]
    constructor
    · rintro ⟨hr, hn⟩
      exact ⟨hr, fun hj => hn ⟨hj, h⟩⟩
    · rintro ⟨hr, hn⟩
      exact ⟨hr, fun hj => hn hj.1⟩
  · intro j hj
    rw [removeIssuer_issuerToSecret]
    simp [hj]
  · intro s1 hs1
    exact removeIssuer_secretToIssuers_ne h hs1

theorem RemoveIssuer_touches_only_removed_witness :
    (run [.remember (Issuer.make "t" "iss1" (some ⟨"t", "sec1"⟩)),
          .remember (Issuer.make "t" "iss2" (some ⟨"t", "sec1"⟩))]).issuerToSecret
        ⟨"t", "iss1"⟩ = some ⟨"t", "sec1"⟩ ∧
    (IssuerNamesFor
      (RemoveIssuer
        (run [.remember (Issuer.make "t" "iss1" (some ⟨"t", "sec1"⟩)),
              .remember (Issuer.make "t" "iss2" (some ⟨"t", "sec1"⟩))])
        ⟨"t", "iss1"⟩).2 ⟨"t", "sec1"⟩).1 = some {⟨"t", "iss2"⟩} ∧
    (RemoveIssuer
        (run [.remember (Issuer.make "t" "iss1" (some ⟨"t", "sec1"⟩)),
              .remember (Issuer.make "t" "iss2" (some ⟨"t", "sec1"⟩))])
        ⟨"t", "iss1"⟩).1 = true :=
  ⟨by decide, by decide,
   (RemoveIssuer_touches_only_removed
      [.remember (Issuer.make "t" "iss1" (some ⟨"t", "sec1"⟩)),
       .remember (Issuer.make "t" "iss2" (some ⟨"t", "sec1"⟩))]
      ⟨"t", "iss1"⟩ ⟨"t", "sec1"⟩ (by decide)).1⟩

/-- Claim C14 (the last referrer prunes the secret): for every state reached
from the empty index in which the issuer `i` is the only member of
`secretToIssuers[s]`, `RemoveIssuer(i)`, and likewise `RememberIssuerSecret`
for `i` with an absent secret reference, returns true, and afterwards `s` is
not a key of `secretToIssuers`, so `IssuerNamesFor(s)` returns nil. -/
theorem last_referrer_prunes_secret (calls : List Call) (s : ObjectName) :
    (∀ i, (run calls).secretToIssuers s = some {i} →
      (RemoveIssuer (run calls) i).1 = true ∧
      (RemoveIssuer (run calls) i).2.secretToIssuers s = none ∧
      (IssuerNamesFor (RemoveIssuer (run calls) i).2 s).1 = none) ∧
    (∀ ns name, (run calls).secretToIssuers s = some {newObjectName ns name} →
      (RememberIssuerSecret (run calls) (Issuer.make ns name none)).1 = true ∧
      (RememberIssuerSecret (run calls) (Issuer.make ns name none)).2.secretToIssuers s = none ∧
      (IssuerNamesFor (RememberIssuerSecret (run calls) (Issuer.make ns name none)).2 s).1
        = none) := by
  have key : ∀ i, (run calls).secretToIssuers s = some {i} →
      (removeIssuer (run calls) i).1 = true ∧
      (removeIssuer (run calls) i).2.secretToIssuers s = none := by
    intro i hset
    have hf : (run calls).issuerToSecret i = some s :=
      (inv_run calls).rev s i ⟨{i}, hset, Finset.mem_singleton_self i⟩
    constructor
    · rw [removeIssuer_fst, hf]
      rfl
    · rw [removeIssuer_secretToIssuers_same hf, hset]
      simp
  simp only [IssuerNamesFor_fst]
  constructor
  · intro i hset
    exact ⟨(key i hset).1, (key i hset).2, (key i hset).2⟩
  · intro ns name hset
    have hk := key _ hset
    exact ⟨hk.1, hk.2, hk.2⟩

theorem last_referrer_prunes_secret_witness :
    (RemoveIssuer
        (run [.remember (Issuer.make "t" "iss1" (some ⟨"t", "sec1"⟩))]) ⟨"t", "iss1"⟩).1 = true ∧
    (RememberIssuerSecret
        (run [.remember (Issuer.make "t" "iss1" (some ⟨"t", "sec1"⟩))])
        (Issuer.make "t" "iss1" none)).2.secretToIssuers ⟨"t", "sec1"⟩ = none :=
  ⟨((last_referrer_prunes_secret
      [.remember (Issuer.make "t" "iss1" (some ⟨"t", "sec1"⟩))] ⟨"t", "sec1"⟩).1
      ⟨"t", "iss1"⟩ (by decide)).1,
   ((last_referrer_prunes_secret
      [.remember (Issuer.make "t" "iss1" (some ⟨"t", "sec1"⟩))] ⟨"t", "sec1"⟩).2
      "t" "iss1" (by decide)).2.1⟩

/-! ## The fresh index -/

/-- Claim C15 (first record on a fresh index): both maps of
`NewReferencedSecrets()` are empty, so `IssuerNamesFor` returns nil for every
secret and `RemoveIssuer` returns false for every issuer; for every issuer with
a secret reference, `RememberIssuerSecret` on the fresh index returns true, and
afterwards `IssuerNamesFor` of the normalised secret name is exactly the
singleton of the normalised issuer name while `IssuerNamesFor` of every other
secret is nil. -/
theorem first_record_on_fresh_index (ns name : String) (ref : SecretReference) :
    (∀ k, NewReferencedSecrets.secretToIssuers k = none ∧
      NewReferencedSecrets.issuerToSecret k = none) ∧
    (∀ s, (IssuerNamesFor NewReferencedSecrets s).1 = none) ∧
    (∀ i, (RemoveIssuer NewReferencedSecrets i).1 = false) ∧
    (RememberIssuerSecret NewReferencedSecrets (Issuer.make ns name (some ref))).1 = true ∧
    (IssuerNamesFor
      (RememberIssuerSecret NewReferencedSecrets (Issuer.make ns name (some ref))).2
      (newObjectName ref.Namespace ref.Name)).1 = some {newObjectName ns name} ∧
    (∀ s, s ≠ newObjectName ref.Namespace ref.Name →
      (IssuerNamesFor
        (RememberIssuerSecret NewReferencedSecrets (Issuer.make ns name (some ref))).2 s).1
        = none) := by
  have hne : NewReferencedSecrets.issuerToSecret (newObjectName ns name) ≠
      some (newObjectName ref.Namespace ref.Name) := by
    simp [NewReferencedSecrets]
  have hrem : removeIssuer NewReferencedSecrets (newObjectName ns name) =
      (false, NewReferencedSecrets) := removeIssuer_of_none rfl
  have hcall : RememberIssuerSecret NewReferencedSecrets (Issuer.make ns name (some ref)) =
      updateIssuerSecret NewReferencedSecrets (newObjectName ns name)
        (newObjectName ref.Namespace ref.Name) := rfl
  simp only [IssuerNamesFor_fst]
  rw [hcall, updateIssuerSecret_of_ne hne, hrem]
  refine ⟨fun k => ⟨rfl, rfl⟩, fun s => rfl, fun i => ?_, rfl, ?_, ?_⟩
  · exact congrArg Prod.fst (@removeIssuer_of_none NewReferencedSecrets i rfl)
  · simp [NewReferencedSecrets]
  · intro s hs
    simp [NewReferencedSecrets, Function.update_noteq hs]

theorem first_record_on_fresh_index_witness :
    (IssuerNamesFor
      (RememberIssuerSecret NewReferencedSecrets
        (Issuer.make "t" "iss1" (some ⟨"t", "sec1"⟩))).2 ⟨"t", "sec2"⟩).1 = none :=
  (first_record_on_fresh_index "t" "iss1" ⟨"t", "sec1"⟩).2.2.2.2.2 ⟨"t", "sec2"⟩ (by decide)

/-! ## A call that fails -/

/-- Claim C16 fails on the code: for an issuer whose `Spec.ACME` is nil, an
issuer without a secret reference, `RememberIssuerSecret` reads
`issuer.Spec.ACME.PrivateKeySecretRef` through the nil pointer and panics
before it reaches the nil test of `secretRef`. It does so on the fresh index
and on an index that holds a link of that issuer, where the claim has the call
return the result of `removeIssuer`. -/
theorem RememberIssuerSecret_panics_without_ACME :
    RememberIssuerSecretChecked NewReferencedSecrets
        (some { Namespace := "t", Name := "iss1", Spec := { ACME := none } }) =
      .error .nilPointerDereference ∧
    RememberIssuerSecretChecked
        (run [.remember (Issuer.make "t" "iss1" (some ⟨"t", "sec1"⟩))])
        (some { Namespace := "t", Name := "iss1", Spec := { ACME := none } }) =
      .error .nilPointerDereference :=
  ⟨rfl, rfl⟩

/-! ## Algebra of the calls on reachable states -/

/-- Claim C18 (updates to distinct issuers commute): for every state reached
from the empty index and every two issuers whose normalised names differ, each
with a secret reference present or absent, `RememberIssuerSecret` for the first
and then the second yields the same two maps and the same two returned booleans
as the calls in the opposite order. -/
theorem updates_to_distinct_issuers_commute (calls : List Call) (issuer1 issuer2 : Issuer)
    (hne : newObjectName issuer1.Namespace issuer1.Name ≠
      newObjectName issuer2.Namespace issuer2.Name) :
    (RememberIssuerSecret (RememberIssuerSecret (run calls) issuer1).2 issuer2).2.secretToIssuers =
      (RememberIssuerSecret (RememberIssuerSecret (run calls) issuer2).2 issuer1).2.secretToIssuers ∧
    (RememberIssuerSecret (RememberIssuerSecret (run calls) issuer1).2 issuer2).2.issuerToSecret =
      (RememberIssuerSecret (RememberIssuerSecret (run calls) issuer2).2 issuer1).2.issuerToSecret ∧
    (RememberIssuerSecret (run calls) issuer1).1 =
      (RememberIssuerSecret (RememberIssuerSecret (run calls) issuer2).2 issuer1).1 ∧
    (RememberIssuerSecret (RememberIssuerSecret (run calls) issuer1).2 issuer2).1 =
      (RememberIssuerSecret (run calls) issuer2).1 := by
  have hk : issuer1.objectName ≠ issuer2.objectName := hne
  have hfwd :
      (RememberIssuerSecret (RememberIssuerSecret (run calls) issuer1).2 issuer2).2.issuerToSecret =
      (RememberIssuerSecret (RememberIssuerSecret (run calls) issuer2).2 issuer1).2.issuerToSecret := by
    simp only [RememberIssuerSecret_issuerToSecret]
    exact Function.update_comm hk _ _ _
  have hinv := inv_run calls
  refine ⟨?_, hfwd, ?_, ?_⟩
  · exact inv_ext (inv_RememberIssuerSecret (inv_RememberIssuerSecret hinv _) _)
      (inv_RememberIssuerSecret (inv_RememberIssuerSecret hinv _) _) hfwd
  · rw [RememberIssuerSecret_fst, RememberIssuerSecret_fst, RememberIssuerSecret_issuerToSecret,
      Function.update_noteq hk]
  · rw [RememberIssuerSecret_fst, RememberIssuerSecret_fst, RememberIssuerSecret_issuerToSecret,
      Function.update_noteq hk.symm]

theorem updates_to_distinct_issuers_commute_witness :
    newObjectName (Issuer.make "" "iss1" (some ⟨"t", "sec1"⟩)).Namespace
        (Issuer.make "" "iss1" (some ⟨"t", "sec1"⟩)).Name ≠
      newObjectName (Issuer.make "t" "iss2" none).Namespace (Issuer.make "t" "iss2" none).Name ∧
    (RememberIssuerSecret
        (run [.remember (Issuer.make "t" "iss2" (some ⟨"t", "sec1"⟩))])
        (Issuer.make "" "iss1" (some ⟨"t", "sec1"⟩))).1 =
      (RememberIssuerSecret
        (RememberIssuerSecret
          (run [.remember (Issuer.make "t" "iss2" (some ⟨"t", "sec1"⟩))])
          (Issuer.make "t" "iss2" none)).2
        (Issuer.make "" "iss1" (some ⟨"t", "sec1"⟩))).1 :=
  ⟨by decide,
   (updates_to_distinct_issuers_commute
      [.remember (Issuer.make "t" "iss2" (some ⟨"t", "sec1"⟩))]
      (Issuer.make "" "iss1" (some ⟨"t", "sec1"⟩)) (Issuer.make "t" "iss2" none)
      (by decide)).2.2.1⟩

/-- Claim C19 (last write wins): for every state reached from the empty index,
every issuer and every two secret references `A` and `B`, equal or different,
present or absent, both maps after `RememberIssuerSecret` with `A` followed by
`RememberIssuerSecret` of the same issuer with `B` equal the maps after
`RememberIssuerSecret` with `B` alone. -/
theorem last_write_wins (calls : List Call) (ns name : String) (A B : Option SecretReference) :
    (RememberIssuerSecret (RememberIssuerSecret (run calls) (Issuer.make ns name A)).2
        (Issuer.make ns name B)).2.secretToIssuers =
      (RememberIssuerSecret (run calls) (Issuer.make ns name B)).2.secretToIssuers ∧
    (RememberIssuerSecret (RememberIssuerSecret (run calls) (Issuer.make ns name A)).2
        (Issuer.make ns name B)).2.issuerToSecret =
      (RememberIssuerSecret (run calls) (Issuer.make ns name B)).2.issuerToSecret := by
  have hfwd :
      (RememberIssuerSecret (RememberIssuerSecret (run calls) (Issuer.make ns name A)).2
        (Issuer.make ns name B)).2.issuerToSecret =
      (RememberIssuerSecret (run calls) (Issuer.make ns name B)).2.issuerToSecret := by
    simp only [RememberIssuerSecret_issuerToSecret]
    exact Function.update_idem _ _ _
  have hinv := inv_run calls
  exact ⟨inv_ext (inv_RememberIssuerSecret (inv_RememberIssuerSecret hinv _) _)
    (inv_RememberIssuerSecret hinv _) hfwd, hfwd⟩

/-- Claim C20 (record then remove is a round trip): for every state reached
from the empty index and every issuer `i` without a forward link in that state,
`RememberIssuerSecret` of `i` with any secret reference followed by
`RemoveIssuer` of the normalised name of `i` returns true both times and
leaves both maps equal to the original ones. -/
theorem record_then_remove_round_trip (calls : List Call) (ns name : String)
    (ref : SecretReference)
    (hnone : (run calls).issuerToSecret (newObjectName ns name) = none) :
    (RememberIssuerSecret (run calls) (Issuer.make ns name (some ref))).1 = true ∧
    (RemoveIssuer (RememberIssuerSecret (run calls) (Issuer.make ns name (some ref))).2
      (newObjectName ns name)).1 = true ∧
    (RemoveIssuer (RememberIssuerSecret (run calls) (Issuer.make ns name (some ref))).2
      (newObjectName ns name)).2.secretToIssuers = (run calls).secretToIssuers ∧
    (RemoveIssuer (RememberIssuerSecret (run calls) (Issuer.make ns name (some ref))).2
      (newObjectName ns name)).2.issuerToSecret = (run calls).issuerToSecret := by
  have hobj : (Issuer.make ns name (some ref)).objectName = newObjectName ns name := rfl
  have hsec : (Issuer.make ns name (some ref)).secretName =
      some (newObjectName ref.Namespace ref.Name) := rfl
  have hfwd :
      (RemoveIssuer (RememberIssuerSecret (run calls) (Issuer.make ns name (some ref))).2
        (newObjectName ns name)).2.issuerToSecret = (run calls).issuerToSecret := by
    unfold RemoveIssuer
    rw [removeIssuer_issuerToSecret_eq, RememberIssuerSecret_issuerToSecret, hobj,
      Function.update_idem, ← hnone, Function.update_eq_self]
  have hinv := inv_run calls
  refine ⟨?_, ?_, ?_, hfwd⟩
  · rw [RememberIssuerSecret_fst, hobj, hsec, hnone]
    rfl
  · unfold RemoveIssuer
    rw [removeIssuer_fst, RememberIssuerSecret_issuerToSecret, hobj, hsec]
    simp
  · exact inv_ext (inv_removeIssuer (inv_RememberIssuerSecret hinv _) _) hinv hfwd

theorem record_then_remove_round_trip_witness :
    (run [.remember (Issuer.make "t" "iss2" (some ⟨"t", "sec1"⟩))]).issuerToSecret
        (newObjectName "" "iss1") = none ∧
    (RememberIssuerSecret (run [.remember (Issuer.make "t" "iss2" (some ⟨"t", "sec1"⟩))])
        (Issuer.make "" "iss1" (some ⟨"t", "sec1"⟩))).1 = true ∧
    (RemoveIssuer
        (RememberIssuerSecret (run [.remember (Issuer.make "t" "iss2" (some ⟨"t", "sec1"⟩))])
          (Issuer.make "" "iss1" (some ⟨"t", "sec1"⟩))).2
        (newObjectName "" "iss1")).2.secretToIssuers =
      (run [.remember (Issuer.make "t" "iss2" (some ⟨"t", "sec1"⟩))]).secretToIssuers :=
  ⟨by decide,
   (record_then_remove_round_trip [.remember (Issuer.make "t" "iss2" (some ⟨"t", "sec1"⟩))]
      "" "iss1" ⟨"t", "sec1"⟩ (by decide)).1,
   (record_then_remove_round_trip [.remember (Issuer.make "t" "iss2" (some ⟨"t", "sec1"⟩))]
      "" "iss1" ⟨"t", "sec1"⟩ (by decide)).2.2.1⟩

end ReferencedSecrets
